import Mathlib

/-!
Shallow embedding of the locked-resource bulk snapshot-deletion workflow of
`delete_snapshots.py` (the async variant `v2_az_getdelsnap.py` implements
the same logic function-for-function; `delete_snapshot.py` is the
interactive threaded variant of the same workflow).

Azure CLI invocations are modelled by a deterministic `AzClient` oracle;
every workflow function additionally returns the list of CLI calls it
issued, in order, and Python exceptions are modelled as `Except.error`
values threaded to the `try/except` handler of `main`.
-/

/-- A scope lock as parsed from `az lock list` output: one object of the
`[].{name:name, level:level}` query. -/
structure AzLock where
  name : String
  level : String
deriving DecidableEq, Repr

/-- Outcome of `run_az_command` for a shell-string command: `ok out` is the
stripped stdout of a zero-exit run, `err msg` is a non-zero exit, which
`run_az_command` surfaces as the string `"Error: " ++ msg`.  Shell-string
commands never raise: every exception inside `run_az_command` on that path
is caught and converted to an `"Error: ..."` string as well. -/
inductive CmdResult
  | ok (out : String)
  | err (msg : String)
deriving DecidableEq, Repr

/-- `isPrefixOfChars p s` holds when the character list `p` is a prefix of
the character list `s`. -/
def isPrefixOfChars : List Char → List Char → Bool
  | [], _ => true
  | _ :: _, [] => false
  | a :: as, b :: bs => a = b && isPrefixOfChars as bs

/-- Python `result.startswith("Error:")` on the string `run_az_command`
returned. -/
def startsWithErr (s : String) : Bool :=
  isPrefixOfChars "Error:".data s.data

/-- Python `not result.startswith("Error:")`, the success test every caller
applies to a shell-string command result.  An `err` result is the string
`"Error: " ++ msg` and always starts with `"Error:"`; an `ok` result starts
with it only when the command's own stdout does. -/
def cmdSuccess : CmdResult → Bool
  | CmdResult.ok out => !(startsWithErr out)
  | CmdResult.err _ => false

/-- Outcome of `az account list` as seen through `get_subscription_names`:
`ok subs` is the `json.loads`-parsed `[{id, name}]` array of a successful
run; `err` covers a failed run (an `"Error: ..."` string) and empty output,
both of which make the function fall through and return the empty map. -/
inductive AccountListResult
  | ok (subs : List (String × String))
  | err (msg : String)
deriving DecidableEq, Repr

/-- Outcome of the `az lock list` step: `ok locks` models `run_az_command`
returning valid JSON that `json.loads` parses into a lock array; `err msg`
models `run_az_command` returning the string `"Error: " ++ msg` (or, in the
async variant, `None`), which `json.loads` rejects — a string starting with
`"Error:"` is not JSON — raising an exception at
`locks = json.loads(run_az_command(command))`. -/
inductive LockListResult
  | ok (locks : List AzLock)
  | err (msg : String)
deriving DecidableEq, Repr

/-- One Azure CLI invocation issued by the workflow.  The subscription
component of the lock events records the sticky account context active when
the command ran (the command line itself names only the resource group and
lock). -/
inductive AzEvent
  | accountShow
  | accountList
  | snapshotShow (id : String)
  | snapshotDelete (id : String)
  | accountSet (sub : String)
  | lockList (sub rg : String)
  | lockDelete (sub rg name : String)
  | lockCreate (sub rg name level : String)
deriving DecidableEq, Repr

/-- The event is one of the lock operations (`az lock list`,
`az lock delete`, `az lock create`). -/
def AzEvent.isLockOp : AzEvent → Bool
  | AzEvent.lockList _ _ => true
  | AzEvent.lockDelete _ _ _ => true
  | AzEvent.lockCreate _ _ _ _ => true
  | _ => false

/-- The event is an `az snapshot delete` call. -/
def AzEvent.isSnapshotDelete : AzEvent → Bool
  | AzEvent.snapshotDelete _ => true
  | _ => false

/-- The event is an `az lock create` call. -/
def AzEvent.isLockCreate : AzEvent → Bool
  | AzEvent.lockCreate _ _ _ _ => true
  | _ => false

/-- The Azure CLI as observed through `run_az_command`: a deterministic
response for each command the workflow can issue.  `accountSet` is the one
argument-list command (`['az', 'account', 'set', ...]`, run through
`subprocess.run` with `check=True`): `false` models a non-zero exit, on
which `run_az_command` re-raises `CalledProcessError` instead of returning
an error string.  `logFile` is the filename `generate_log_file` returns, or
`none` when writing the log failed (its `except` branch). -/
structure AzClient where
  accountShow : CmdResult
  accountList : AccountListResult
  snapshotShow : String → CmdResult
  snapshotDelete : String → CmdResult
  accountSet : String → Bool
  lockList : String → String → LockListResult
  lockDelete : String → String → String → CmdResult
  lockCreate : String → String → String → String → CmdResult
  logFile : Option String

/-- Python `snapshot_id.split('/')` over the characters still to scan and
the (reversed) characters of the current segment. -/
def splitSlashAux : List Char → List Char → List String
  | [], acc => [String.mk acc.reverse]
  | ch :: cs, acc =>
      if ch = '/' then String.mk acc.reverse :: splitSlashAux cs []
      else splitSlashAux cs (ch :: acc)

/-- Python `snapshot_id.split('/')`: split on every slash, keeping empty
segments, with `"".split('/') == ['']`. -/
def splitSlash (s : String) : List String :=
  splitSlashAux s.data []

/-- Last binding for a key in an association list, mirroring a Python dict
built by comprehension (later duplicate keys overwrite earlier ones). -/
def lookupLast : List (String × String) → String → Option String
  | [], _ => none
  | p :: rest, key =>
      match lookupLast rest key with
      | some v => some v
      | none => if p.1 = key then some p.2 else none

/-- Python `subscription_names.get(subscription_id, subscription_id)`. -/
def lookupName (subs : List (String × String)) (key : String) : String :=
  (lookupLast subs key).getD key

/-- One entry of a per-status result list: plain snapshot names for the
`valid` / `non-existent` / `deleted` lists, `(identifier-or-name, reason)`
tuples for the `invalid` / `failed` lists. -/
inductive EntryData
  | name (s : String)
  | withReason (id reason : String)
deriving DecidableEq, Repr

/-- The per-account value of a results dictionary: status → list of
entries, in Python dict insertion order. -/
abbrev StatusMap := List (String × List EntryData)

/-- A results dictionary: account display name → status map, in Python
dict insertion order. -/
abbrev ResultsMap := List (String × StatusMap)

/-- Key lookup in a status map (first binding; the construction keeps keys
unique, as a Python dict does). -/
def lookupStatus : StatusMap → String → Option (List EntryData)
  | [], _ => none
  | q :: rest, s => if q.1 = s then some q.2 else lookupStatus rest s

/-- Key lookup in a results dictionary. -/
def lookupAccount : ResultsMap → String → Option StatusMap
  | [], _ => none
  | p :: rest, a => if p.1 = a then some p.2 else lookupAccount rest a

/-- `results[account][status]` when both keys are present. -/
def lookupRS (r : ResultsMap) (a s : String) : Option (List EntryData) :=
  (lookupAccount r a).bind (fun m => lookupStatus m s)

/-- The list of status keys of a status map. -/
def smKeys (m : StatusMap) : List String := m.map Prod.fst

/-- The list of account keys of a results dictionary. -/
def resKeys (r : ResultsMap) : List String := r.map Prod.fst

/-- The well-formedness a Python dict guarantees for a results dictionary:
account keys are distinct, and so are the status keys of every account's
map. -/
def ResultsWF (r : ResultsMap) : Prop :=
  (resKeys r).Nodup ∧ ∀ p ∈ r, (smKeys p.2).Nodup

/-- Python `if status not in d: d[status] = []` followed by
`d[status].append(x)`. -/
def appendStatus : StatusMap → String → EntryData → StatusMap
  | [], s, x => [(s, [x])]
  | q :: rest, s, x =>
      if q.1 = s then (q.1, q.2 ++ [x]) :: rest else q :: appendStatus rest s x

/-- Python `results[account][status].append(x)` with the two
`if ... not in ...` key initializations of the source. -/
def appendResult : ResultsMap → String → String → EntryData → ResultsMap
  | [], a, s, x => [(a, [(s, [x])])]
  | p :: rest, a, s, x =>
      if p.1 = a then (p.1, appendStatus p.2 s x) :: rest
      else p :: appendResult rest a s x

/-- Python `d[s] = xs` on a status map: overwrite the binding if present,
append it otherwise. -/
def setStatus : StatusMap → String → List EntryData → StatusMap
  | [], s, xs => [(s, xs)]
  | q :: rest, s, xs =>
      if q.1 = s then (q.1, xs) :: rest else q :: setStatus rest s xs

/-- Python `base.update(upd)` on a status map: every binding of `upd` is
written into `base`, overwriting on key collision. -/
def updateStatusMap (base upd : StatusMap) : StatusMap :=
  upd.foldl (fun acc q => setStatus acc q.1 q.2) base

/-- Python `results[a] = m` on a results dictionary. -/
def setAccount : ResultsMap → String → StatusMap → ResultsMap
  | [], a, m => [(a, m)]
  | p :: rest, a, m =>
      if p.1 = a then (a, m) :: rest else p :: setAccount rest a m

/-- One iteration of the merge loop at the end of `main`:
`if subscription in results: results[subscription].update(data)
else: results[subscription] = data`. -/
def mergeStep (acc : ResultsMap) (p : String × StatusMap) : ResultsMap :=
  match lookupAccount acc p.1 with
  | some m => setAccount acc p.1 (updateStatusMap m p.2)
  | none => acc ++ [p]

/-- The merge of pre-validation results with deletion results performed by
`main` (`for subscription, data in deletion_results.items(): ...`). -/
def mergeResults (pre del : ResultsMap) : ResultsMap :=
  del.foldl mergeStep pre

/-- `check_az_login()`: run `az account show` and test its result; the
function's own `except` branch is unreachable for a shell-string command. -/
def check_az_login (c : AzClient) : Bool × List AzEvent :=
  (cmdSuccess c.accountShow, [AzEvent.accountShow])

/-- `get_subscription_names()`: `az account list`, parsed to an id → name
map on success and the empty map on a failed or empty result. -/
def get_subscription_names (c : AzClient) : List (String × String) × List AzEvent :=
  (match c.accountList with
   | AccountListResult.ok subs => subs
   | AccountListResult.err _ => [],
   [AzEvent.accountList])

/-- Python truthiness of the `subscription_name` value in
`pre_validate_snapshots`: `None` and the empty string are falsy. -/
def truthyName : Option String → Bool
  | none => false
  | some s => !(s.data.isEmpty)

/-- `process_snapshot(snapshot_id, subscription_names)`: fewer than 9
slash-separated segments → `(None, "invalid", (id, reason))` with no client
call; otherwise one `az snapshot show --ids` call, classified `"valid"` on
success and `"non-existent"` on any non-success.  The `except` branch that
returns status `"error"` fires only when the body itself raises (e.g. a
non-string id), which no modelled input does. -/
def process_snapshot (c : AzClient) (snapshot_id : String)
    (subscription_names : List (String × String)) :
    (Option String × String × EntryData) × List AzEvent :=
  let parts := splitSlash snapshot_id
  if parts.length < 9 then
    ((none, "invalid", EntryData.withReason snapshot_id "Invalid snapshot ID format"), [])
  else
    let subscription_name := lookupName subscription_names (parts.getD 2 "")
    let snapshot_name := parts.getLastD ""
    if cmdSuccess (c.snapshotShow snapshot_id) then
      ((some subscription_name, "valid", EntryData.name snapshot_name),
       [AzEvent.snapshotShow snapshot_id])
    else
      ((some subscription_name, "non-existent", EntryData.name snapshot_name),
       [AzEvent.snapshotShow snapshot_id])

/-- The loop of `pre_validate_snapshots` over the remaining ids, carrying
the `valid_snapshots` list, the `results` dictionary, and the call trace. -/
def preValidateAux (c : AzClient) (subs : List (String × String)) :
    List String → List String → ResultsMap → List AzEvent →
    (List String × ResultsMap) × List AzEvent
  | [], valid, results, trace => ((valid, results), trace)
  | id :: rest, valid, results, trace =>
      let step := process_snapshot c id subs
      let status := step.1.2.1
      if truthyName step.1.1 then
        preValidateAux c subs rest
          (if status = "valid" then valid ++ [id] else valid)
          (appendResult results ((step.1.1).getD "Unknown") status step.1.2.2)
          (trace ++ step.2)
      else
        preValidateAux c subs rest valid
          (appendResult results "Unknown" status step.1.2.2)
          (trace ++ step.2)

/-- `pre_validate_snapshots(snapshot_ids, subscription_names)`: returns the
valid identifiers (in input order) and the per-account validation
results. -/
def pre_validate_snapshots (c : AzClient) (ids : List String)
    (subs : List (String × String)) :
    (List String × ResultsMap) × List AzEvent :=
  preValidateAux c subs ids [] [] []

/-- One step of `get_resource_groups_from_snapshots`: add
`(parts[2], parts[4])` when the identifier has at least 5 segments and the
pair is not already present.  The source collects the pairs in a Python
`set`, whose iteration order is unspecified; the model keeps
first-occurrence order, on which no claim depends. -/
def rgStep (acc : List (String × String)) (id : String) : List (String × String) :=
  let parts := splitSlash id
  if 5 ≤ parts.length then
    let pair := (parts.getD 2 "", parts.getD 4 "")
    if pair ∈ acc then acc else acc ++ [pair]
  else acc

/-- `get_resource_groups_from_snapshots(snapshot_ids)`: the distinct
`(subscription_id, resource_group)` pairs of the given identifiers. -/
def get_resource_groups_from_snapshots (ids : List String) : List (String × String) :=
  ids.foldl rgStep []

/-- A removed-locks ledger entry:
`(subscription_id, resource_group, lock_name)`. -/
abbrev LockEntry := String × String × String

/-- `switch_subscription(subscription, current_subscription)`: a no-op when
the context already matches; otherwise one `az account set` call, which on
failure raises (`run_az_command` re-raises `CalledProcessError` for
argument-list commands and `switch_subscription` re-raises it again). -/
def switch_subscription (c : AzClient) (sub : String) (current : Option String) :
    Except String (Option String) × List AzEvent :=
  if some sub = current then (Except.ok current, [])
  else if c.accountSet sub then (Except.ok (some sub), [AzEvent.accountSet sub])
  else (Except.error ("Failed to switch to subscription " ++ sub), [AzEvent.accountSet sub])

/-- The inner loop of `check_and_remove_scope_locks` over the locks listed
in one resource group: delete every lock at level `CanNotDelete`, appending
it to the removed-locks ledger on success and only logging on failure. -/
def removeLocksInGroup (c : AzClient) (sub rg : String) :
    List AzLock → List LockEntry × List AzEvent
  | [] => ([], [])
  | lk :: rest =>
      let tail := removeLocksInGroup c sub rg rest
      if lk.level = "CanNotDelete" then
        if cmdSuccess (c.lockDelete sub rg lk.name) then
          ((sub, rg, lk.name) :: tail.1, AzEvent.lockDelete sub rg lk.name :: tail.2)
        else (tail.1, AzEvent.lockDelete sub rg lk.name :: tail.2)
      else tail

/-- The loop of `check_and_remove_scope_locks` over the remaining
`(subscription, resource_group)` pairs, carrying the sticky account
context, the ledger built so far, and the call trace.  A failed
subscription switch raises; a failed lock-list result raises at
`json.loads` (see `LockListResult`); either exception abandons the ledger
built so far (a local variable of the Python function). -/
def removeLocksAux (c : AzClient) :
    List (String × String) → Option String → List LockEntry → List AzEvent →
    Except String (List LockEntry) × List AzEvent
  | [], _, removed, trace => (Except.ok removed, trace)
  | (sub, rg) :: rest, current, removed, trace =>
      match switch_subscription c sub current with
      | (Except.error e, tr) => (Except.error e, trace ++ tr)
      | (Except.ok current2, tr) =>
          match c.lockList sub rg with
          | LockListResult.err msg =>
              (Except.error ("JSONDecodeError: " ++ msg),
               trace ++ tr ++ [AzEvent.lockList sub rg])
          | LockListResult.ok locks =>
              let grp := removeLocksInGroup c sub rg locks
              removeLocksAux c rest current2 (removed ++ grp.1)
                (trace ++ tr ++ [AzEvent.lockList sub rg] ++ grp.2)

/-- `check_and_remove_scope_locks(resource_groups)`: returns the
removed-locks ledger, or raises. -/
def check_and_remove_scope_locks (c : AzClient)
    (resource_groups : List (String × String)) :
    Except String (List LockEntry) × List AzEvent :=
  removeLocksAux c resource_groups none [] []

/-- The loop of `delete_valid_snapshots` over the remaining valid ids,
carrying the `results` dictionary and the call trace.  Every id gets one
`az snapshot delete --ids` call; success is recorded under `"deleted"`,
failure under `"failed"` with reason `"Deletion failed"`.  No step of the
loop raises: the delete is a shell-string command. -/
def deleteValidAux (c : AzClient) (subs : List (String × String)) :
    List String → ResultsMap → List AzEvent → ResultsMap × List AzEvent
  | [], results, trace => (results, trace)
  | id :: rest, results, trace =>
      let parts := splitSlash id
      let subName := lookupName subs (parts.getD 2 "")
      let snapName := parts.getLastD ""
      let results2 :=
        if cmdSuccess (c.snapshotDelete id) then
          appendResult results subName "deleted" (EntryData.name snapName)
        else
          appendResult results subName "failed"
            (EntryData.withReason snapName "Deletion failed")
      deleteValidAux c subs rest results2 (trace ++ [AzEvent.snapshotDelete id])

/-- `delete_valid_snapshots(valid_snapshots, subscription_names)`. -/
def delete_valid_snapshots (c : AzClient) (valid_snapshots : List String)
    (subs : List (String × String)) : ResultsMap × List AzEvent :=
  deleteValidAux c subs valid_snapshots [] []

/-- The loop of `restore_scope_locks` over the remaining ledger entries,
carrying the sticky account context, the restored list, the list of entries
whose recreation failed — the per-entry error log lines, i.e. the run's
orphaned-lock report — and the call trace.  Each entry gets one
`az lock create` at level `CanNotDelete` with its original name; a failed
create is logged and the loop continues, but a failed subscription switch
raises and abandons the remaining entries. -/
def restoreAux (c : AzClient) :
    List LockEntry → Option String → List LockEntry → List LockEntry → List AzEvent →
    Except String (List LockEntry × List LockEntry) × List AzEvent
  | [], _, restored, orphaned, trace => (Except.ok (restored, orphaned), trace)
  | (sub, rg, name) :: rest, current, restored, orphaned, trace =>
      match switch_subscription c sub current with
      | (Except.error e, tr) => (Except.error e, trace ++ tr)
      | (Except.ok current2, tr) =>
          if cmdSuccess (c.lockCreate sub rg name "CanNotDelete") then
            restoreAux c rest current2 (restored ++ [(sub, rg, name)]) orphaned
              (trace ++ tr ++ [AzEvent.lockCreate sub rg name "CanNotDelete"])
          else
            restoreAux c rest current2 restored (orphaned ++ [(sub, rg, name)])
              (trace ++ tr ++ [AzEvent.lockCreate sub rg name "CanNotDelete"])

/-- `restore_scope_locks(removed_locks)`: returns the restored entries
together with the reported-orphaned entries (the source returns only the
restored list and logs each orphaned entry). -/
def restore_scope_locks (c : AzClient) (removed_locks : List LockEntry) :
    Except String (List LockEntry × List LockEntry) × List AzEvent :=
  restoreAux c removed_locks none [] [] []

deriving instance DecidableEq for Except

/-- The create succeeded for this ledger entry. -/
def restoreSucc (c : AzClient) (e : LockEntry) : Bool :=
  cmdSuccess (c.lockCreate e.1 e.2.1 e.2.2 "CanNotDelete")

/-- The dictionary `main(snapshot_ids)` returns: `report results logFile`
models `{"results": ..., "log_file": ..., "total_runtime": ...}` (the
runtime float is wall-clock time and is not modelled), `error msg` models
`{"error": msg}`. -/
inductive MainResult
  | report (results : ResultsMap) (logFile : Option String)
  | error (msg : String)
deriving DecidableEq, Repr

/-- `main(snapshot_ids)` of delete_snapshots.py.  The whole body runs
inside `try: ... except Exception as e: return {"error": str(e)}`, so every
modelled exception surfaces as `MainResult.error`.

`execFault` injects an unexpected fault raised inside
`delete_valid_snapshots` itself — the spec's "fault raised by the Bulk
Executor's own logic (not a per-item client failure)", e.g. resource
exhaustion or a failure of the logging machinery, which no per-call handler
intercepts; `none` is the normal case in which the phase runs to
completion.  The fault is modelled as raised at the start of the phase;
where inside the phase it fires does not matter for the properties at
issue.  All other modelled exceptions (a failed `az account set`,
`json.loads` applied to a failed lock-list result) arise from the client
responses themselves. -/
def main_workflow (c : AzClient) (execFault : Option String) (snapshot_ids : List String) :
    MainResult × List AzEvent :=
  let login := check_az_login c
  if !login.1 then
    (MainResult.error "Not logged in to Azure. Please run az login.", login.2)
  else
    let subsStep := get_subscription_names c
    let pre := pre_validate_snapshots c snapshot_ids subsStep.1
    let trHead := login.2 ++ subsStep.2 ++ pre.2
    if pre.1.1 = [] then
      (MainResult.report pre.1.2 c.logFile, trHead)
    else
      let resource_groups := get_resource_groups_from_snapshots pre.1.1
      let suspend := check_and_remove_scope_locks c resource_groups
      match suspend.1 with
      | Except.error e => (MainResult.error e, trHead ++ suspend.2)
      | Except.ok removed_locks =>
          match execFault with
          | some m => (MainResult.error m, trHead ++ suspend.2)
          | none =>
              let del := delete_valid_snapshots c pre.1.1 subsStep.1
              let rest := restore_scope_locks c removed_locks
              match rest.1 with
              | Except.error e =>
                  (MainResult.error e, trHead ++ suspend.2 ++ del.2 ++ rest.2)
              | Except.ok _ =>
                  (MainResult.report (mergeResults pre.1.2 del.1) c.logFile,
                   trHead ++ suspend.2 ++ del.2 ++ rest.2)

/-- An Azure resource id of a snapshot `snap-a` in resource group `rg1` of
subscription `111` (9 segments: the leading empty one plus 8). -/
def snapIdA : String :=
  "/subscriptions/111/resourceGroups/rg1/providers/Microsoft.Compute/snapshots/snap-a"

/-- A second snapshot id in the same resource group. -/
def snapIdB : String :=
  "/subscriptions/111/resourceGroups/rg1/providers/Microsoft.Compute/snapshots/snap-b"

/-- A client for which every call succeeds, subscription `111` is named
`SubOne`, and no resource group has locks. -/
def baseClient : AzClient where
  accountShow := CmdResult.ok "account-info"
  accountList := AccountListResult.ok [("111", "SubOne")]
  snapshotShow := fun _ => CmdResult.ok "snapshot-info"
  snapshotDelete := fun _ => CmdResult.ok ""
  accountSet := fun _ => true
  lockList := fun _ _ => LockListResult.ok []
  lockDelete := fun _ _ _ => CmdResult.ok ""
  lockCreate := fun _ _ _ _ => CmdResult.ok ""
  logFile := some "logs/deletion.txt"

/-- `baseClient` except that the existence check fails with a permission
error, not a definitive not-found. -/
def permDeniedClient : AzClient :=
  { baseClient with
    snapshotShow := fun _ => CmdResult.err "AuthorizationFailed - access denied" }

/-- `baseClient` except that resource group `rg1` carries one
`CanNotDelete` lock named `lock1`. -/
def lockedClient : AzClient :=
  { baseClient with
    lockList := fun s r =>
      if s = "111" ∧ r = "rg1" then LockListResult.ok [⟨"lock1", "CanNotDelete"⟩]
      else LockListResult.ok [] }

/-- `baseClient` except that listing the locks of `rg1` fails (the command
returns an error string, or `None` in the async variant). -/
def lockListFailClient : AzClient :=
  { baseClient with
    lockList := fun _ r =>
      if r = "rg1" then LockListResult.err "could not get locks"
      else LockListResult.ok [] }

/-- `baseClient` except that enumerating the accounts fails. -/
def noAccountsClient : AzClient :=
  { baseClient with accountList := AccountListResult.err "cannot list accounts" }

/-- `baseClient` except that the login check fails. -/
def badLoginClient : AzClient :=
  { baseClient with accountShow := CmdResult.err "Please run az login first" }

/-- `baseClient` except that only subscription `s1` can be switched to. -/
def switchFailClient : AzClient :=
  { baseClient with accountSet := fun s => decide (s = "s1") }

/-- `baseClient` except that recreating lock `L2` fails. -/
def orphanClient : AzClient :=
  { baseClient with
    lockCreate := fun _ _ n _ =>
      if n = "L2" then CmdResult.err "cannot recreate" else CmdResult.ok "" }

/-! ### Association-list lemmas for the results dictionaries -/

theorem lookupAccount_append_left {r : ResultsMap} {a : String} {m : StatusMap}
    (h : lookupAccount r a = some m) (l : ResultsMap) :
    lookupAccount (r ++ l) a = some m := by
  induction r with
  | nil => simp [lookupAccount] at h
  | cons p rest ih =>
      by_cases hpa : p.1 = a
      · simp [lookupAccount, hpa] at h ⊢; exact h
      · simp [lookupAccount, hpa] at h ⊢; exact ih h

theorem lookupAccount_append_right {r : ResultsMap} {a : String}
    (h : lookupAccount r a = none) (l : ResultsMap) :
    lookupAccount (r ++ l) a = lookupAccount l a := by
  induction r with
  | nil => simp
  | cons p rest ih =>
      by_cases hpa : p.1 = a
      · simp [lookupAccount, hpa] at h
      · simp [lookupAccount, hpa] at h ⊢; exact ih h

theorem setAccount_lookup_self (r : ResultsMap) (a : String) (m : StatusMap) :
    lookupAccount (setAccount r a m) a = some m := by
  induction r with
  | nil => simp [setAccount, lookupAccount]
  | cons p rest ih =>
      by_cases hpa : p.1 = a
      · simp [setAccount, hpa, lookupAccount]
      · simp [setAccount, hpa, lookupAccount, ih]

theorem setAccount_lookup_ne {a2 a : String} (hne : a2 ≠ a) (r : ResultsMap) (m : StatusMap) :
    lookupAccount (setAccount r a2 m) a = lookupAccount r a := by
  induction r with
  | nil => simp [setAccount, lookupAccount, hne]
  | cons p rest ih =>
      by_cases hpa : p.1 = a2
      · simp [setAccount, hpa, lookupAccount, hne]
      · simp [setAccount, hpa, lookupAccount, ih]

theorem setStatus_lookup_self (m : StatusMap) (s : String) (xs : List EntryData) :
    lookupStatus (setStatus m s xs) s = some xs := by
  induction m with
  | nil => simp [setStatus, lookupStatus]
  | cons q rest ih =>
      by_cases hq : q.1 = s
      · simp [setStatus, hq, lookupStatus]
      · simp [setStatus, hq, lookupStatus, ih]

theorem setStatus_lookup_ne {s2 s : String} (hne : s2 ≠ s) (m : StatusMap)
    (xs : List EntryData) :
    lookupStatus (setStatus m s2 xs) s = lookupStatus m s := by
  induction m with
  | nil => simp [setStatus, lookupStatus, hne]
  | cons q rest ih =>
      by_cases hq : q.1 = s2
      · simp [setStatus, hq, lookupStatus, hne]
      · simp [setStatus, hq, lookupStatus, ih]

theorem updateStatusMap_cons (b : StatusMap) (q : String × List EntryData)
    (rest : StatusMap) :
    updateStatusMap b (q :: rest) = updateStatusMap (setStatus b q.1 q.2) rest := rfl

theorem updateStatusMap_lookup_nomem {upd : StatusMap} {s : String}
    (h : ∀ q ∈ upd, q.1 ≠ s) (b : StatusMap) :
    lookupStatus (updateStatusMap b upd) s = lookupStatus b s := by
  induction upd generalizing b with
  | nil => rfl
  | cons q rest ih =>
      rw [updateStatusMap_cons,
        ih (fun q2 hq2 => h q2 (List.mem_cons_of_mem _ hq2)),
        setStatus_lookup_ne (h q (List.mem_cons_self _ _))]

theorem lookupStatus_key_mem {m : StatusMap} {s : String} {xs : List EntryData}
    (h : lookupStatus m s = some xs) : s ∈ smKeys m := by
  induction m with
  | nil => simp [lookupStatus] at h
  | cons q rest ih =>
      by_cases hq : q.1 = s
      · simp [smKeys, hq]
      · simp [lookupStatus, hq] at h
        simp [smKeys] at ih ⊢
        exact Or.inr (ih h)

theorem updateStatusMap_lookup_mem {upd : StatusMap} {s : String} {xs : List EntryData}
    (hnodup : (smKeys upd).Nodup) (h : lookupStatus upd s = some xs) (b : StatusMap) :
    lookupStatus (updateStatusMap b upd) s = some xs := by
  induction upd generalizing b with
  | nil => simp [lookupStatus] at h
  | cons q rest ih =>
      rw [updateStatusMap_cons]
      rw [smKeys, List.map_cons, List.nodup_cons] at hnodup
      by_cases hq : q.1 = s
      · simp [lookupStatus, hq] at h
        have hrest : ∀ q2 ∈ rest, q2.1 ≠ s := by
          intro q2 hq2 heq
          exact hnodup.1 (hq ▸ heq ▸ List.mem_map_of_mem Prod.fst hq2)
        rw [updateStatusMap_lookup_nomem hrest, ← h, ← hq, setStatus_lookup_self]
      · simp [lookupStatus, hq] at h
        exact ih hnodup.2 h _

/-! ### Key-set lemmas for `appendStatus` / `appendResult` -/

theorem smKeys_appendStatus (m : StatusMap) (s : String) (x : EntryData) :
    smKeys (appendStatus m s x) =
      if s ∈ smKeys m then smKeys m else smKeys m ++ [s] := by
  induction m with
  | nil => simp [appendStatus, smKeys]
  | cons q rest ih =>
      by_cases hq : q.1 = s
      · simp [appendStatus, hq, smKeys]
      · have hsq : s ≠ q.1 := Ne.symm hq
        simp only [appendStatus, if_neg hq, smKeys, List.map_cons] at ih ⊢
        rw [ih]
        by_cases hmem : s ∈ List.map Prod.fst rest
        · rw [if_pos hmem, if_pos (List.mem_cons_of_mem _ hmem)]
        · rw [if_neg hmem, if_neg (by simp [List.mem_cons, hsq, hmem]),
            List.cons_append]

theorem mem_smKeys_appendStatus {m : StatusMap} {s t : String} {x : EntryData}
    (h : t ∈ smKeys (appendStatus m s x)) : t ∈ smKeys m ∨ t = s := by
  rw [smKeys_appendStatus] at h
  by_cases hmem : s ∈ smKeys m
  · rw [if_pos hmem] at h; exact Or.inl h
  · rw [if_neg hmem] at h
    rcases List.mem_append.mp h with h | h
    · exact Or.inl h
    · exact Or.inr (List.mem_singleton.mp h)

theorem nodup_smKeys_appendStatus {m : StatusMap} (h : (smKeys m).Nodup)
    (s : String) (x : EntryData) : (smKeys (appendStatus m s x)).Nodup := by
  rw [smKeys_appendStatus]
  by_cases hmem : s ∈ smKeys m
  · rw [if_pos hmem]; exact h
  · rw [if_neg hmem]
    rw [List.nodup_append]
    exact ⟨h, List.nodup_singleton s, by
      intro t ht hts
      exact hmem ((List.mem_singleton.mp hts) ▸ ht)⟩

theorem resKeys_appendResult (r : ResultsMap) (a s : String) (x : EntryData) :
    resKeys (appendResult r a s x) =
      if a ∈ resKeys r then resKeys r else resKeys r ++ [a] := by
  induction r with
  | nil => simp [appendResult, resKeys]
  | cons p rest ih =>
      by_cases hp : p.1 = a
      · simp [appendResult, hp, resKeys]
      · have hap : a ≠ p.1 := Ne.symm hp
        simp only [appendResult, if_neg hp, resKeys, List.map_cons] at ih ⊢
        rw [ih]
        by_cases hmem : a ∈ List.map Prod.fst rest
        · rw [if_pos hmem, if_pos (List.mem_cons_of_mem _ hmem)]
        · rw [if_neg hmem, if_neg (by simp [List.mem_cons, hap, hmem]),
            List.cons_append]

theorem mem_appendResult {r : ResultsMap} {a s : String} {x : EntryData} :
    ∀ p ∈ appendResult r a s x,
      p ∈ r ∨ (∃ q ∈ r, p = (q.1, appendStatus q.2 s x)) ∨ p = (a, [(s, [x])]) := by
  induction r with
  | nil =>
      intro p hp
      simp [appendResult] at hp
      exact Or.inr (Or.inr hp)
  | cons q0 rest ih =>
      intro p hp
      by_cases h0 : q0.1 = a
      · simp only [appendResult, if_pos h0, List.mem_cons] at hp
        rcases hp with hp | hp
        · exact Or.inr (Or.inl ⟨q0, List.mem_cons_self _ _, hp⟩)
        · exact Or.inl (List.mem_cons_of_mem _ hp)
      · simp only [appendResult, if_neg h0, List.mem_cons] at hp
        rcases hp with hp | hp
        · exact Or.inl (by simp [hp])
        · rcases ih p hp with h | ⟨q, hq, he⟩ | h
          · exact Or.inl (List.mem_cons_of_mem _ h)
          · exact Or.inr (Or.inl ⟨q, List.mem_cons_of_mem _ hq, he⟩)
          · exact Or.inr (Or.inr h)

theorem resultsWF_appendResult {r : ResultsMap} (h : ResultsWF r)
    (a s : String) (x : EntryData) : ResultsWF (appendResult r a s x) := by
  constructor
  · rw [resKeys_appendResult]
    by_cases hmem : a ∈ resKeys r
    · rw [if_pos hmem]; exact h.1
    · rw [if_neg hmem]
      rw [List.nodup_append]
      exact ⟨h.1, List.nodup_singleton a, by
        intro t ht hts
        exact hmem ((List.mem_singleton.mp hts) ▸ ht)⟩
  · intro p hp
    rcases mem_appendResult p hp with hm | ⟨q, hq, he⟩ | hm
    · exact h.2 p hm
    · rw [he]
      exact nodup_smKeys_appendStatus (h.2 q hq) s x
    · rw [hm]
      simp [smKeys]

theorem statuses_appendResult {S : String → Prop} {r : ResultsMap} {a s : String}
    {x : EntryData} (hr : ∀ p ∈ r, ∀ t ∈ smKeys p.2, S t) (hs : S s) :
    ∀ p ∈ appendResult r a s x, ∀ t ∈ smKeys p.2, S t := by
  intro p hp t ht
  rcases mem_appendResult p hp with hm | ⟨q, hq, he⟩ | hm
  · exact hr p hm t ht
  · rw [he] at ht
    rcases mem_smKeys_appendStatus ht with ht2 | ht2
    · exact hr q hq t ht2
    · exact ht2 ▸ hs
  · rw [hm] at ht
    simp [smKeys] at ht
    exact ht ▸ hs

/-! ### Merge lemmas -/

theorem mergeResults_cons (pre : ResultsMap) (p : String × StatusMap)
    (rest : ResultsMap) :
    mergeResults pre (p :: rest) = mergeResults (mergeStep pre p) rest := rfl

theorem mergeStep_none {acc : ResultsMap} {p : String × StatusMap}
    (h : lookupAccount acc p.1 = none) : mergeStep acc p = acc ++ [p] := by
  simp [mergeStep, h]

theorem mergeStep_some {acc : ResultsMap} {p : String × StatusMap} {m : StatusMap}
    (h : lookupAccount acc p.1 = some m) :
    mergeStep acc p = setAccount acc p.1 (updateStatusMap m p.2) := by
  simp [mergeStep, h]

theorem lookupRS_key_mem {r : ResultsMap} {a s : String} {xs : List EntryData}
    (h : lookupRS r a s = some xs) : ∃ p ∈ r, p.1 = a ∧ s ∈ smKeys p.2 := by
  induction r with
  | nil => simp [lookupRS, lookupAccount] at h
  | cons p rest ih =>
      by_cases hp : p.1 = a
      · refine ⟨p, List.mem_cons_self _ _, hp, ?_⟩
        simp only [lookupRS, lookupAccount, if_pos hp, Option.some_bind] at h
        exact lookupStatus_key_mem h
      · simp only [lookupRS, lookupAccount, if_neg hp] at h
        obtain ⟨q, hq, hqa, hqs⟩ := ih h
        exact ⟨q, List.mem_cons_of_mem _ hq, hqa, hqs⟩

theorem lookupRS_isSome {r : ResultsMap} {a s : String} {xs : List EntryData}
    (h : lookupRS r a s = some xs) : ∃ m0, lookupAccount r a = some m0 := by
  rcases hl : lookupAccount r a with _ | m0
  · simp [lookupRS, hl] at h
  · exact ⟨m0, rfl⟩

theorem merge_preserves_pre :
    ∀ (del pre : ResultsMap) {a s : String} {xs : List EntryData},
      (∀ p ∈ del, ∀ q ∈ p.2, q.1 ≠ s) →
      lookupRS pre a s = some xs →
      lookupRS (mergeResults pre del) a s = some xs := by
  intro del
  induction del with
  | nil => intro pre a s xs _ h; exact h
  | cons p rest ih =>
      intro pre a s xs hD hpre
      rw [mergeResults_cons]
      refine ih (mergeStep pre p) (fun p2 hp2 => hD p2 (List.mem_cons_of_mem _ hp2)) ?_
      have hDp : ∀ q ∈ p.2, q.1 ≠ s := hD p (List.mem_cons_self _ _)
      rcases hla : lookupAccount pre p.1 with _ | m
      · obtain ⟨m0, hm0⟩ := lookupRS_isSome hpre
        rw [mergeStep_none hla]
        simp only [lookupRS, hm0, Option.some_bind] at hpre
        simp only [lookupRS, lookupAccount_append_left hm0, Option.some_bind]
        exact hpre
      · rw [mergeStep_some hla]
        by_cases hpa : p.1 = a
        · subst hpa
          simp only [lookupRS, hla, Option.some_bind] at hpre
          simp only [lookupRS, setAccount_lookup_self, Option.some_bind]
          rw [updateStatusMap_lookup_nomem hDp]
          exact hpre
        · simp only [lookupRS, setAccount_lookup_ne hpa]
          exact hpre

theorem merge_fold_preserves :
    ∀ (del acc : ResultsMap) {a s : String} {xs : List EntryData},
      (∀ p ∈ del, p.1 ≠ a) →
      lookupRS acc a s = some xs →
      lookupRS (List.foldl mergeStep acc del) a s = some xs := by
  intro del
  induction del with
  | nil => intro acc a s xs _ h; exact h
  | cons p rest ih =>
      intro acc a s xs hne hacc
      rw [List.foldl_cons]
      refine ih (mergeStep acc p) (fun p2 hp2 => hne p2 (List.mem_cons_of_mem _ hp2)) ?_
      have hpa : p.1 ≠ a := hne p (List.mem_cons_self _ _)
      rcases hla : lookupAccount acc p.1 with _ | m
      · obtain ⟨m0, hm0⟩ := lookupRS_isSome hacc
        rw [mergeStep_none hla]
        simp only [lookupRS, hm0, Option.some_bind] at hacc
        simp only [lookupRS, lookupAccount_append_left hm0, Option.some_bind]
        exact hacc
      · rw [mergeStep_some hla]
        simp only [lookupRS, setAccount_lookup_ne hpa]
        exact hacc

theorem merge_finds_del :
    ∀ (del pre : ResultsMap) {a s : String} {xs : List EntryData},
      (resKeys del).Nodup →
      (∀ p ∈ del, (smKeys p.2).Nodup) →
      lookupRS del a s = some xs →
      lookupRS (mergeResults pre del) a s = some xs := by
  intro del
  induction del with
  | nil => intro pre a s xs _ _ h; simp [lookupRS, lookupAccount] at h
  | cons p rest ih =>
      intro pre a s xs hkeys hmaps hdel
      rw [resKeys, List.map_cons, List.nodup_cons] at hkeys
      rw [mergeResults_cons]
      by_cases hpa : p.1 = a
      · have hmdel : lookupStatus p.2 s = some xs := by
          simpa only [lookupRS, lookupAccount, if_pos hpa, Option.some_bind] using hdel
        have hstep : lookupRS (mergeStep pre p) a s = some xs := by
          rcases hla : lookupAccount pre p.1 with _ | m
          · rw [mergeStep_none hla, ← hpa]
            simp only [lookupRS, lookupAccount_append_right hla, lookupAccount,
              if_pos rfl, Option.some_bind]
            exact hmdel
          · rw [mergeStep_some hla, ← hpa]
            simp only [lookupRS, setAccount_lookup_self, Option.some_bind]
            exact updateStatusMap_lookup_mem (hmaps p (List.mem_cons_self _ _)) hmdel m
        refine merge_fold_preserves rest (mergeStep pre p) ?_ hstep
        intro p2 hp2 heq
        exact hkeys.1 (hpa ▸ heq ▸ List.mem_map_of_mem Prod.fst hp2)
      · have hdel2 : lookupRS rest a s = some xs := by
          simpa only [lookupRS, lookupAccount, if_neg hpa] using hdel
        exact ih (mergeStep pre p) hkeys.2
          (fun p2 hp2 => hmaps p2 (List.mem_cons_of_mem _ hp2)) hdel2

/-! ### Validator lemmas -/

theorem process_snapshot_invalid {id : String} (c : AzClient)
    (subs : List (String × String)) (h : (splitSlash id).length < 9) :
    process_snapshot c id subs =
      ((none, "invalid", EntryData.withReason id "Invalid snapshot ID format"), []) := by
  unfold process_snapshot
  rw [if_pos h]

theorem process_snapshot_status (c : AzClient) (id : String)
    (subs : List (String × String)) :
    (process_snapshot c id subs).1.2.1 = "invalid" ∨
    (process_snapshot c id subs).1.2.1 = "non-existent" ∨
    (process_snapshot c id subs).1.2.1 = "valid" := by
  unfold process_snapshot
  by_cases h : (splitSlash id).length < 9
  · rw [if_pos h]; exact Or.inl rfl
  · rw [if_neg h]
    by_cases h2 : cmdSuccess (c.snapshotShow id) = true <;> simp [h2]

theorem process_snapshot_trace (c : AzClient) (id : String)
    (subs : List (String × String)) :
    (process_snapshot c id subs).2 = [] ∨
    (process_snapshot c id subs).2 = [AzEvent.snapshotShow id] := by
  unfold process_snapshot
  by_cases h : (splitSlash id).length < 9
  · rw [if_pos h]; exact Or.inl rfl
  · rw [if_neg h]
    by_cases h2 : cmdSuccess (c.snapshotShow id) = true <;> simp [h2]

theorem preValidateAux_statuses (c : AzClient) (subs : List (String × String))
    {S : String → Prop} (hS1 : S "invalid") (hS2 : S "non-existent") (hS3 : S "valid") :
    ∀ (l valid : List String) (results : ResultsMap) (trace : List AzEvent),
      (∀ p ∈ results, ∀ t ∈ smKeys p.2, S t) →
      ∀ p ∈ (preValidateAux c subs l valid results trace).1.2, ∀ t ∈ smKeys p.2, S t := by
  intro l
  induction l with
  | nil => intro valid results trace h; exact h
  | cons id rest ih =>
      intro valid results trace h
      have hstatus : S (process_snapshot c id subs).1.2.1 := by
        rcases process_snapshot_status c id subs with h2 | h2 | h2 <;> rw [h2] <;>
          assumption
      simp only [preValidateAux]
      by_cases ht : truthyName (process_snapshot c id subs).1.1 = true
      · simp only [ht, if_true]
        exact ih _ _ _ (statuses_appendResult h hstatus)
      · simp only [ht, if_false]
        exact ih _ _ _ (statuses_appendResult h hstatus)

theorem preValidateAux_wf (c : AzClient) (subs : List (String × String)) :
    ∀ (l valid : List String) (results : ResultsMap) (trace : List AzEvent),
      ResultsWF results →
      ResultsWF (preValidateAux c subs l valid results trace).1.2 := by
  intro l
  induction l with
  | nil => intro valid results trace h; exact h
  | cons id rest ih =>
      intro valid results trace h
      simp only [preValidateAux]
      by_cases ht : truthyName (process_snapshot c id subs).1.1 = true
      · simp only [ht, if_true]
        exact ih _ _ _ (resultsWF_appendResult h _ _ _)
      · simp only [ht, if_false]
        exact ih _ _ _ (resultsWF_appendResult h _ _ _)

theorem preValidateAux_valid_mem (c : AzClient) (subs : List (String × String)) :
    ∀ (l valid : List String) (results : ResultsMap) (trace : List AzEvent) (i : String),
      i ∈ (preValidateAux c subs l valid results trace).1.1 →
      i ∈ valid ∨ (process_snapshot c i subs).1.2.1 = "valid" := by
  intro l
  induction l with
  | nil => intro valid results trace i h; exact Or.inl h
  | cons id rest ih =>
      intro valid results trace i h
      simp only [preValidateAux] at h
      by_cases ht : truthyName (process_snapshot c id subs).1.1 = true
      · simp only [ht, if_true] at h
        by_cases hv : (process_snapshot c id subs).1.2.1 = "valid"
        · rw [if_pos hv] at h
          rcases ih _ _ _ _ h with h2 | h2
          · rcases List.mem_append.mp h2 with h3 | h3
            · exact Or.inl h3
            · rw [List.mem_singleton.mp h3]
              exact Or.inr hv
          · exact Or.inr h2
        · rw [if_neg hv] at h
          exact ih _ _ _ _ h
      · simp only [ht, if_false] at h
        exact ih _ _ _ _ h

theorem preValidateAux_trace_mem (c : AzClient) (subs : List (String × String)) :
    ∀ (l valid : List String) (results : ResultsMap) (trace : List AzEvent) (e : AzEvent),
      e ∈ (preValidateAux c subs l valid results trace).2 →
      e ∈ trace ∨ ∃ i ∈ l, e ∈ (process_snapshot c i subs).2 := by
  intro l
  induction l with
  | nil => intro valid results trace e h; exact Or.inl h
  | cons id rest ih =>
      intro valid results trace e h
      simp only [preValidateAux] at h
      have hstep : e ∈ trace ++ (process_snapshot c id subs).2 →
          e ∈ trace ∨ ∃ i ∈ id :: rest, e ∈ (process_snapshot c i subs).2 := by
        intro h2
        rcases List.mem_append.mp h2 with h3 | h3
        · exact Or.inl h3
        · exact Or.inr ⟨id, List.mem_cons_self _ _, h3⟩
      by_cases ht : truthyName (process_snapshot c id subs).1.1 = true
      · simp only [ht, if_true] at h
        rcases ih _ _ _ _ h with h2 | ⟨i, hi, he⟩
        · exact hstep h2
        · exact Or.inr ⟨i, List.mem_cons_of_mem _ hi, he⟩
      · simp only [ht, if_false] at h
        rcases ih _ _ _ _ h with h2 | ⟨i, hi, he⟩
        · exact hstep h2
        · exact Or.inr ⟨i, List.mem_cons_of_mem _ hi, he⟩

/-! ### Bulk-executor lemmas -/

theorem deleteValidAux_statuses (c : AzClient) (subs : List (String × String))
    {S : String → Prop} (hS1 : S "deleted") (hS2 : S "failed") :
    ∀ (l : List String) (results : ResultsMap) (trace : List AzEvent),
      (∀ p ∈ results, ∀ t ∈ smKeys p.2, S t) →
      ∀ p ∈ (deleteValidAux c subs l results trace).1, ∀ t ∈ smKeys p.2, S t := by
  intro l
  induction l with
  | nil => intro results trace h; exact h
  | cons id rest ih =>
      intro results trace h
      simp only [deleteValidAux]
      by_cases hd : cmdSuccess (c.snapshotDelete id) = true
      · simp only [hd, if_true]
        exact ih _ _ (statuses_appendResult h hS1)
      · simp only [hd, if_false]
        exact ih _ _ (statuses_appendResult h hS2)

theorem deleteValidAux_wf (c : AzClient) (subs : List (String × String)) :
    ∀ (l : List String) (results : ResultsMap) (trace : List AzEvent),
      ResultsWF results →
      ResultsWF (deleteValidAux c subs l results trace).1 := by
  intro l
  induction l with
  | nil => intro results trace h; exact h
  | cons id rest ih =>
      intro results trace h
      simp only [deleteValidAux]
      by_cases hd : cmdSuccess (c.snapshotDelete id) = true
      · simp only [hd, if_true]
        exact ih _ _ (resultsWF_appendResult h _ _ _)
      · simp only [hd, if_false]
        exact ih _ _ (resultsWF_appendResult h _ _ _)

theorem deleteValidAux_trace_mem (c : AzClient) (subs : List (String × String)) :
    ∀ (l : List String) (results : ResultsMap) (trace : List AzEvent) (e : AzEvent),
      e ∈ (deleteValidAux c subs l results trace).2 →
      e ∈ trace ∨ ∃ i ∈ l, e = AzEvent.snapshotDelete i := by
  intro l
  induction l with
  | nil => intro results trace e h; exact Or.inl h
  | cons id rest ih =>
      intro results trace e h
      simp only [deleteValidAux] at h
      have hstep : e ∈ trace ++ [AzEvent.snapshotDelete id] →
          e ∈ trace ∨ ∃ i ∈ id :: rest, e = AzEvent.snapshotDelete i := by
        intro h2
        rcases List.mem_append.mp h2 with h3 | h3
        · exact Or.inl h3
        · exact Or.inr ⟨id, List.mem_cons_self _ _, List.mem_singleton.mp h3⟩
      by_cases hd : cmdSuccess (c.snapshotDelete id) = true
      · simp only [hd, if_true] at h
        rcases ih _ _ _ h with h2 | ⟨i, hi, he⟩
        · exact hstep h2
        · exact Or.inr ⟨i, List.mem_cons_of_mem _ hi, he⟩
      · simp only [hd, if_false] at h
        rcases ih _ _ _ h with h2 | ⟨i, hi, he⟩
        · exact hstep h2
        · exact Or.inr ⟨i, List.mem_cons_of_mem _ hi, he⟩

/-! ### Lock-coordinator lemmas -/

theorem switch_subscription_trace (c : AzClient) (sub : String) (current : Option String) :
    (switch_subscription c sub current).2 = [] ∨
    (switch_subscription c sub current).2 = [AzEvent.accountSet sub] := by
  unfold switch_subscription
  by_cases h : some sub = current
  · rw [if_pos h]; exact Or.inl rfl
  · rw [if_neg h]
    by_cases h2 : c.accountSet sub = true <;> simp [h2]

theorem removeLocksInGroup_trace (c : AzClient) (sub rg : String) :
    ∀ (locks : List AzLock) (e : AzEvent), e ∈ (removeLocksInGroup c sub rg locks).2 →
      ∃ n, e = AzEvent.lockDelete sub rg n := by
  intro locks
  induction locks with
  | nil => intro e h; simp [removeLocksInGroup] at h
  | cons lk rest ih =>
      intro e h
      simp only [removeLocksInGroup] at h
      by_cases hl : lk.level = "CanNotDelete"
      · rw [if_pos hl] at h
        by_cases hd : cmdSuccess (c.lockDelete sub rg lk.name) = true
        · rw [if_pos hd] at h
          simp only [List.mem_cons] at h
          rcases h with h | h
          · exact ⟨lk.name, h⟩
          · exact ih e h
        · rw [if_neg hd] at h
          simp only [List.mem_cons] at h
          rcases h with h | h
          · exact ⟨lk.name, h⟩
          · exact ih e h
      · rw [if_neg hl] at h
        exact ih e h

theorem removeLocksAux_trace_mem (c : AzClient) :
    ∀ (pairs : List (String × String)) (current : Option String)
      (removed : List LockEntry) (trace : List AzEvent) (e : AzEvent),
      e ∈ (removeLocksAux c pairs current removed trace).2 →
      e ∈ trace ∨ (∃ s, e = AzEvent.accountSet s) ∨
        (∃ s r, e = AzEvent.lockList s r) ∨ (∃ s r n, e = AzEvent.lockDelete s r n) := by
  intro pairs
  induction pairs with
  | nil => intro current removed trace e h; exact Or.inl h
  | cons pr rest ih =>
      intro current removed trace e h
      obtain ⟨sub, rg⟩ := pr
      have hswtr : ∀ e2 ∈ (switch_subscription c sub current).2,
          ∃ s, e2 = AzEvent.accountSet s := by
        intro e2 he2
        rcases switch_subscription_trace c sub current with hs | hs <;> rw [hs] at he2
        · simp at he2
        · exact ⟨sub, List.mem_singleton.mp he2⟩
      simp only [removeLocksAux] at h
      rcases hsw : switch_subscription c sub current with ⟨res, tr⟩
      rw [hsw] at h
      have htr : ∀ e2 ∈ tr, ∃ s, e2 = AzEvent.accountSet s := by
        intro e2 he2
        exact hswtr e2 (by rw [hsw]; exact he2)
      cases res with
      | error msg =>
          simp only [List.mem_append] at h
          rcases h with h | h
          · exact Or.inl h
          · exact Or.inr (Or.inl (htr e h))
      | ok current2 =>
          rcases hll : c.lockList sub rg with locks | msg
          · rw [hll] at h
            rcases ih _ _ _ _ h with h2 | h2
            · simp only [List.mem_append] at h2
              rcases h2 with ((h3 | h3) | h3) | h3
              · exact Or.inl h3
              · exact Or.inr (Or.inl (htr e h3))
              · exact Or.inr (Or.inr (Or.inl ⟨sub, rg, List.mem_singleton.mp h3⟩))
              · obtain ⟨n, hn⟩ := removeLocksInGroup_trace c sub rg locks e h3
                exact Or.inr (Or.inr (Or.inr ⟨sub, rg, n, hn⟩))
            · exact Or.inr h2
          · rw [hll] at h
            simp only [List.mem_append] at h
            rcases h with (h3 | h3) | h3
            · exact Or.inl h3
            · exact Or.inr (Or.inl (htr e h3))
            · exact Or.inr (Or.inr (Or.inl ⟨sub, rg, List.mem_singleton.mp h3⟩))

/-! ### Restore-phase lemmas -/

theorem restoreAux_trace_mem (c : AzClient) :
    ∀ (entries : List LockEntry) (current : Option String)
      (restored orphaned : List LockEntry) (trace : List AzEvent) (e : AzEvent),
      e ∈ (restoreAux c entries current restored orphaned trace).2 →
      e ∈ trace ∨ (∃ s, e = AzEvent.accountSet s) ∨
        (∃ s r n lv, e = AzEvent.lockCreate s r n lv) := by
  intro entries
  induction entries with
  | nil => intro current restored orphaned trace e h; exact Or.inl h
  | cons en rest ih =>
      intro current restored orphaned trace e h
      obtain ⟨sub, rg, name⟩ := en
      have hswtr : ∀ e2 ∈ (switch_subscription c sub current).2,
          ∃ s, e2 = AzEvent.accountSet s := by
        intro e2 he2
        rcases switch_subscription_trace c sub current with hs | hs <;> rw [hs] at he2
        · simp at he2
        · exact ⟨sub, List.mem_singleton.mp he2⟩
      simp only [restoreAux] at h
      rcases hsw : switch_subscription c sub current with ⟨res, tr⟩
      rw [hsw] at h
      have htr : ∀ e2 ∈ tr, ∃ s, e2 = AzEvent.accountSet s := by
        intro e2 he2
        exact hswtr e2 (by rw [hsw]; exact he2)
      cases res with
      | error msg =>
          simp only [List.mem_append] at h
          rcases h with h | h
          · exact Or.inl h
          · exact Or.inr (Or.inl (htr e h))
      | ok current2 =>
          have hdispatch :
              e ∈ trace ++ tr ++ [AzEvent.lockCreate sub rg name "CanNotDelete"] →
              e ∈ trace ∨ (∃ s, e = AzEvent.accountSet s) ∨
                (∃ s r n lv, e = AzEvent.lockCreate s r n lv) := by
            intro h2
            simp only [List.mem_append] at h2
            rcases h2 with (h3 | h3) | h3
            · exact Or.inl h3
            · exact Or.inr (Or.inl (htr e h3))
            · exact Or.inr (Or.inr ⟨sub, rg, name, "CanNotDelete",
                List.mem_singleton.mp h3⟩)
          by_cases hcr : cmdSuccess (c.lockCreate sub rg name "CanNotDelete") = true
          · simp only [hcr, if_true] at h
            rcases ih _ _ _ _ _ h with h2 | h2
            · exact hdispatch h2
            · exact Or.inr h2
          · simp only [hcr, if_false] at h
            rcases ih _ _ _ _ _ h with h2 | h2
            · exact hdispatch h2
            · exact Or.inr h2

theorem switch_subscription_ok {c : AzClient} {sub : String} {current : Option String}
    (h : c.accountSet sub = true) :
    switch_subscription c sub current =
      (Except.ok (if some sub = current then current else some sub),
       if some sub = current then [] else [AzEvent.accountSet sub]) := by
  unfold switch_subscription
  by_cases hc : some sub = current
  · simp [hc]
  · simp [hc, h]

theorem restoreAux_ok (c : AzClient) :
    ∀ (entries : List LockEntry) (current : Option String)
      (restored orphaned : List LockEntry) (trace : List AzEvent),
      (∀ e ∈ entries, c.accountSet e.1 = true) →
      (restoreAux c entries current restored orphaned trace).1 =
        Except.ok (restored ++ entries.filter (fun e => restoreSucc c e),
                   orphaned ++ entries.filter (fun e => !(restoreSucc c e)))
      ∧ ((restoreAux c entries current restored orphaned trace).2).filter
            AzEvent.isLockCreate
          = trace.filter AzEvent.isLockCreate ++
            entries.map (fun e => AzEvent.lockCreate e.1 e.2.1 e.2.2 "CanNotDelete") := by
  intro entries
  induction entries with
  | nil => intro current restored orphaned trace _; simp [restoreAux]
  | cons en rest ih =>
      intro current restored orphaned trace hset
      obtain ⟨sub, rg, name⟩ := en
      have hsub : c.accountSet sub = true := hset _ (List.mem_cons_self _ _)
      have hrest : ∀ e ∈ rest, c.accountSet e.1 = true :=
        fun e he => hset e (List.mem_cons_of_mem _ he)
      have htr0 : List.filter AzEvent.isLockCreate
          (if some sub = current then [] else [AzEvent.accountSet sub]) = [] := by
        by_cases hc : some sub = current <;> simp [hc, AzEvent.isLockCreate]
      have hsucc : restoreSucc c (sub, rg, name) =
          cmdSuccess (c.lockCreate sub rg name "CanNotDelete") := rfl
      simp only [restoreAux, switch_subscription_ok hsub]
      by_cases hcr : cmdSuccess (c.lockCreate sub rg name "CanNotDelete") = true
      · rw [if_pos hcr]
        obtain ⟨ihr, iht⟩ := ih _ (restored ++ [(sub, rg, name)]) orphaned
          (trace ++ (if some sub = current then [] else [AzEvent.accountSet sub]) ++
            [AzEvent.lockCreate sub rg name "CanNotDelete"]) hrest
        refine ⟨?_, ?_⟩
        · rw [ihr]
          have h1 : restoreSucc c (sub, rg, name) = true := hcr
          simp [List.filter_cons, h1]
        · rw [iht]
          simp [List.filter_append, htr0, AzEvent.isLockCreate]
      · rw [if_neg hcr]
        obtain ⟨ihr, iht⟩ := ih _ restored (orphaned ++ [(sub, rg, name)])
          (trace ++ (if some sub = current then [] else [AzEvent.accountSet sub]) ++
            [AzEvent.lockCreate sub rg name "CanNotDelete"]) hrest
        refine ⟨?_, ?_⟩
        · rw [ihr]
          have h0 : cmdSuccess (c.lockCreate sub rg name "CanNotDelete") = false := by
            simpa using hcr
          have h1 : restoreSucc c (sub, rg, name) = false := by rw [hsucc]; exact h0
          simp [List.filter_cons, h1]
        · rw [iht]
          simp [List.filter_append, htr0, AzEvent.isLockCreate]

/-! ### Dedup of the derived resource-group pairs -/

theorem rgStep_nodup {acc : List (String × String)} (h : acc.Nodup) (id : String) :
    (rgStep acc id).Nodup := by
  unfold rgStep
  by_cases h5 : 5 ≤ (splitSlash id).length
  · rw [if_pos h5]
    by_cases hmem : ((splitSlash id).getD 2 "", (splitSlash id).getD 4 "") ∈ acc
    · simp only [if_pos hmem]
      exact h
    · simp only [if_neg hmem]
      rw [List.nodup_append]
      exact ⟨h, List.nodup_singleton _, by
        intro t ht hts
        exact hmem ((List.mem_singleton.mp hts) ▸ ht)⟩
  · rw [if_neg h5]
    exact h

theorem get_resource_groups_nodup (ids : List String) :
    (get_resource_groups_from_snapshots ids).Nodup := by
  suffices h : ∀ (l : List String) (acc : List (String × String)),
      acc.Nodup → (List.foldl rgStep acc l).Nodup by
    exact h ids [] List.nodup_nil
  intro l
  induction l with
  | nil => intro acc h; simpa using h
  | cons x xs ih =>
      intro acc h
      rw [List.foldl_cons]
      exact ih _ (rgStep_nodup h x)

/-! ### Workflow-level lemmas -/

theorem main_workflow_login_fail {c : AzClient} (h : cmdSuccess c.accountShow = false)
    (fault : Option String) (ids : List String) :
    main_workflow c fault ids =
      (MainResult.error "Not logged in to Azure. Please run az login.",
       [AzEvent.accountShow]) := by
  simp [main_workflow, check_az_login, h]

theorem main_workflow_empty_valid {c : AzClient} (hlogin : cmdSuccess c.accountShow = true)
    (fault : Option String) (ids : List String)
    (hempty : (pre_validate_snapshots c ids (get_subscription_names c).1).1.1 = []) :
    main_workflow c fault ids =
      (MainResult.report (pre_validate_snapshots c ids (get_subscription_names c).1).1.2
         c.logFile,
       AzEvent.accountShow :: AzEvent.accountList ::
         (pre_validate_snapshots c ids (get_subscription_names c).1).2) := by
  have h2 : (get_subscription_names c).2 = [AzEvent.accountList] := rfl
  simp [main_workflow, check_az_login, hlogin, hempty, h2]

theorem main_trace_mem (c : AzClient) (fault : Option String) (ids : List String) :
    ∀ e ∈ (main_workflow c fault ids).2,
      e = AzEvent.accountShow ∨ e = AzEvent.accountList ∨
      (∃ i ∈ ids, e ∈ (process_snapshot c i (get_subscription_names c).1).2) ∨
      (∃ s, e = AzEvent.accountSet s) ∨
      (∃ s r, e = AzEvent.lockList s r) ∨
      (∃ s r n, e = AzEvent.lockDelete s r n) ∨
      (∃ i, i ∈ (pre_validate_snapshots c ids (get_subscription_names c).1).1.1 ∧
        e = AzEvent.snapshotDelete i) ∨
      (∃ s r n lv, e = AzEvent.lockCreate s r n lv) := by
  intro e he
  have hpre : ∀ e2, e2 ∈ (pre_validate_snapshots c ids (get_subscription_names c).1).2 →
      ∃ i ∈ ids, e2 ∈ (process_snapshot c i (get_subscription_names c).1).2 := by
    intro e2 he2
    rcases preValidateAux_trace_mem c _ ids [] [] [] e2 he2 with h | h
    · simp at h
    · exact h
  have hsus : ∀ (rgs : List (String × String)) (e2 : AzEvent),
      e2 ∈ (check_and_remove_scope_locks c rgs).2 →
      (∃ s, e2 = AzEvent.accountSet s) ∨ (∃ s r, e2 = AzEvent.lockList s r) ∨
        (∃ s r n, e2 = AzEvent.lockDelete s r n) := by
    intro rgs e2 he2
    rcases removeLocksAux_trace_mem c rgs none [] [] e2 he2 with h | h
    · simp at h
    · exact h
  have hdel : ∀ (valid : List String) (e2 : AzEvent),
      e2 ∈ (delete_valid_snapshots c valid (get_subscription_names c).1).2 →
      ∃ i ∈ valid, e2 = AzEvent.snapshotDelete i := by
    intro valid e2 he2
    rcases deleteValidAux_trace_mem c _ valid [] [] e2 he2 with h | h
    · simp at h
    · exact h
  have hres : ∀ (removed : List LockEntry) (e2 : AzEvent),
      e2 ∈ (restore_scope_locks c removed).2 →
      (∃ s, e2 = AzEvent.accountSet s) ∨ (∃ s r n lv, e2 = AzEvent.lockCreate s r n lv) := by
    intro removed e2 he2
    rcases restoreAux_trace_mem c removed none [] [] [] e2 he2 with h | h
    · simp at h
    · exact h
  cases hlog : cmdSuccess c.accountShow with
  | false =>
      rw [main_workflow_login_fail hlog] at he
      simp only [List.mem_singleton] at he
      exact Or.inl he
  | true =>
      by_cases hempty :
          (pre_validate_snapshots c ids (get_subscription_names c).1).1.1 = []
      · rw [main_workflow_empty_valid hlog fault ids hempty] at he
        simp only [List.mem_cons] at he
        rcases he with he | he | he
        · exact Or.inl he
        · exact Or.inr (Or.inl he)
        · exact Or.inr (Or.inr (Or.inl (hpre e he)))
      · have h1 : (check_az_login c).1 = cmdSuccess c.accountShow := rfl
        have h2t : (check_az_login c).2 = [AzEvent.accountShow] := rfl
        have h3t : (get_subscription_names c).2 = [AzEvent.accountList] := rfl
        simp only [main_workflow, h1, hlog, Bool.not_true, h2t, h3t] at he
        rw [if_neg (by simp)] at he
        rw [if_neg hempty] at he
        rcases hsusp : (check_and_remove_scope_locks c
            (get_resource_groups_from_snapshots
              (pre_validate_snapshots c ids (get_subscription_names c).1).1.1)).1
          with msg | removed
        · simp only [hsusp, List.mem_append, List.mem_cons, List.mem_singleton,
            List.mem_nil_iff, or_false] at he
          rcases he with ((he | he) | he) | he
          · exact Or.inl he
          · exact Or.inr (Or.inl he)
          · exact Or.inr (Or.inr (Or.inl (hpre e he)))
          · rcases hsus _ e he with h | h | h
            · exact Or.inr (Or.inr (Or.inr (Or.inl h)))
            · exact Or.inr (Or.inr (Or.inr (Or.inr (Or.inl h))))
            · exact Or.inr (Or.inr (Or.inr (Or.inr (Or.inr (Or.inl h)))))
        · cases fault with
          | some m =>
              simp only [hsusp, List.mem_append, List.mem_cons, List.mem_singleton,
            List.mem_nil_iff, or_false] at he
              rcases he with ((he | he) | he) | he
              · exact Or.inl he
              · exact Or.inr (Or.inl he)
              · exact Or.inr (Or.inr (Or.inl (hpre e he)))
              · rcases hsus _ e he with h | h | h
                · exact Or.inr (Or.inr (Or.inr (Or.inl h)))
                · exact Or.inr (Or.inr (Or.inr (Or.inr (Or.inl h))))
                · exact Or.inr (Or.inr (Or.inr (Or.inr (Or.inr (Or.inl h)))))
          | none =>
              rcases hrest2 : (restore_scope_locks c removed).1 with msg2 | ok2
              all_goals
                simp only [hsusp, hrest2, List.mem_append, List.mem_cons,
                  List.mem_singleton, List.mem_nil_iff, or_false] at he
              all_goals
                rcases he with ((((he | he) | he) | he) | he) | he
                case _ => exact Or.inl he
                case _ => exact Or.inr (Or.inl he)
                case _ => exact Or.inr (Or.inr (Or.inl (hpre e he)))
                case _ =>
                  rcases hsus _ e he with h | h | h
                  · exact Or.inr (Or.inr (Or.inr (Or.inl h)))
                  · exact Or.inr (Or.inr (Or.inr (Or.inr (Or.inl h))))
                  · exact Or.inr (Or.inr (Or.inr (Or.inr (Or.inr (Or.inl h)))))
                case _ =>
                  obtain ⟨i, hi, hie⟩ := hdel _ e he
                  exact Or.inr (Or.inr (Or.inr (Or.inr (Or.inr (Or.inr (Or.inl
                    ⟨i, hi, hie⟩))))))
                case _ =>
                  rcases hres _ e he with h | h
                  · exact Or.inr (Or.inr (Or.inr (Or.inl h)))
                  · exact Or.inr (Or.inr (Or.inr (Or.inr (Or.inr (Or.inr (Or.inr h))))))

/-! ### Claim theorems -/

/-- Claim C1 (code bug): when the suspend phase has removed a lock (the
ledger is non-empty) and the deletion phase then raises an unexpected
fault, `main` skips `restore_scope_locks` entirely — there is no
`try/finally` — and returns the error dictionary without issuing a single
`az lock create` call, contradicting the claim that restoration over the
ledger happens before the fault propagates to the caller. -/
theorem c1_theorem :
    (check_and_remove_scope_locks lockedClient [("111", "rg1")]).1 =
        Except.ok [("111", "rg1", "lock1")]
    ∧ main_workflow lockedClient (some "unexpected executor fault") [snapIdA] =
        (MainResult.error "unexpected executor fault",
         [AzEvent.accountShow, AzEvent.accountList, AzEvent.snapshotShow snapIdA,
          AzEvent.accountSet "111", AzEvent.lockList "111" "rg1",
          AzEvent.lockDelete "111" "rg1" "lock1"])
    ∧ ∀ e ∈ (main_workflow lockedClient (some "unexpected executor fault") [snapIdA]).2,
        AzEvent.isLockCreate e = false := by
  refine ⟨by decide, by decide, by decide⟩

/-- Claim C2 (counterexample): a permission-denied existence-check response
(an `AuthorizationFailed` error, not a definitive not-found) is classified
as `"non-existent"`, not as the claimed `Error` outcome carrying the
client's message. -/
theorem c2_counterexample :
    (process_snapshot permDeniedClient snapIdA [("111", "SubOne")]).1 =
      (some "SubOne", "non-existent", EntryData.name "snap-a")
    ∧ (process_snapshot permDeniedClient snapIdA [("111", "SubOne")]).1.2.1 ≠ "error" := by
  refine ⟨by decide, by decide⟩

/-- Claim C2 (amended): for every identifier with at least 9 segments, the
Validator maps every non-success existence-check response — definitive
not-found, permission denied, or transient error alike — to the
`"non-existent"` outcome, a success to `"valid"`, and never produces the
`"error"` outcome from a client response. -/
theorem c2_theorem (c : AzClient) (subs : List (String × String)) (id : String)
    (h : 9 ≤ (splitSlash id).length) :
    (cmdSuccess (c.snapshotShow id) = false →
      (process_snapshot c id subs).1.2.1 = "non-existent")
    ∧ (cmdSuccess (c.snapshotShow id) = true →
      (process_snapshot c id subs).1.2.1 = "valid")
    ∧ (process_snapshot c id subs).1.2.1 ≠ "error" := by
  simp only [process_snapshot]
  rw [if_neg (by omega)]
  refine ⟨?_, ?_, ?_⟩
  · intro hcs
    rw [if_neg (by simp [hcs])]
  · intro hcs
    rw [if_pos hcs]
  · by_cases hcs : cmdSuccess (c.snapshotShow id) = true
    · rw [if_pos hcs]
      exact (by decide : ("valid" : String) ≠ "error")
    · rw [if_neg hcs]
      exact (by decide : ("non-existent" : String) ≠ "error")

/-- Claim C2 (witness): the amended theorem applied to the
permission-denied client and a well-formed identifier. -/
theorem c2_witness :
    (process_snapshot permDeniedClient snapIdA [("111", "SubOne")]).1.2.1
      = "non-existent" :=
  (c2_theorem permDeniedClient [("111", "SubOne")] snapIdA (by decide)).1 (by decide)

/-- Claim C3 (counterexample): with a two-entry ledger whose second entry
lives in a subscription that cannot be switched to, the restore phase
raises at the switch and abandons the second entry: it is attempted zero
times (no `az lock create` for it) and is neither restored nor reported
orphaned, so the union of the restored and orphaned sets does not equal
the ledger. -/
theorem c3_counterexample :
    restore_scope_locks switchFailClient [("s1", "rg1", "L1"), ("s2", "rg2", "L2")] =
      (Except.error "Failed to switch to subscription s2",
       [AzEvent.accountSet "s1", AzEvent.lockCreate "s1" "rg1" "L1" "CanNotDelete",
        AzEvent.accountSet "s2"])
    ∧ AzEvent.lockCreate "s2" "rg2" "L2" "CanNotDelete" ∉
        (restore_scope_locks switchFailClient
          [("s1", "rg1", "L1"), ("s2", "rg2", "L2")]).2 := by
  refine ⟨by decide, by decide⟩

/-- Claim C3 (amended): provided every account-context switch of the
restore phase succeeds, the phase attempts one `az lock create` per ledger
entry, in ledger order, with the original name at level `CanNotDelete`; a
per-entry create failure does not abort the remaining restorations; and
the restored and orphaned sets are the success/failure partition of the
ledger, whose union is exactly the ledger.  (If a switch raises, the
remaining entries are abandoned, as the counterexample shows.) -/
theorem c3_theorem (c : AzClient) (removed : List LockEntry)
    (h : ∀ e ∈ removed, c.accountSet e.1 = true) :
    (restore_scope_locks c removed).1 =
      Except.ok (removed.filter (fun e => restoreSucc c e),
                 removed.filter (fun e => !(restoreSucc c e)))
    ∧ ((restore_scope_locks c removed).2).filter AzEvent.isLockCreate
        = removed.map (fun e => AzEvent.lockCreate e.1 e.2.1 e.2.2 "CanNotDelete")
    ∧ (removed.filter (fun e => restoreSucc c e) ++
        removed.filter (fun e => !(restoreSucc c e))).Perm removed := by
  obtain ⟨h1, h2⟩ := restoreAux_ok c removed none [] [] [] h
  refine ⟨by simpa using h1, by simpa using h2, ?_⟩
  exact List.filter_append_perm _ removed

/-- Claim C3 (witness): the amended theorem applied to a ledger of two
locks in one subscription of which only the first can be recreated. -/
theorem c3_witness :
    (restore_scope_locks orphanClient [("111", "rg1", "L1"), ("111", "rg1", "L2")]).1 =
      Except.ok ([("111", "rg1", "L1"), ("111", "rg1", "L2")].filter
          (fun e => restoreSucc orphanClient e),
        [("111", "rg1", "L1"), ("111", "rg1", "L2")].filter
          (fun e => !(restoreSucc orphanClient e)))
    ∧ ((restore_scope_locks orphanClient
          [("111", "rg1", "L1"), ("111", "rg1", "L2")]).2).filter AzEvent.isLockCreate
        = [("111", "rg1", "L1"), ("111", "rg1", "L2")].map
            (fun e => AzEvent.lockCreate e.1 e.2.1 e.2.2 "CanNotDelete")
    ∧ ([("111", "rg1", "L1"), ("111", "rg1", "L2")].filter
          (fun e => restoreSucc orphanClient e) ++
        [("111", "rg1", "L1"), ("111", "rg1", "L2")].filter
          (fun e => !(restoreSucc orphanClient e))).Perm
        [("111", "rg1", "L1"), ("111", "rg1", "L2")] :=
  c3_theorem orphanClient [("111", "rg1", "L1"), ("111", "rg1", "L2")] (by decide)

/-- Claim C4 (counterexample): a client on which `az account list` fails
does not abort the workflow: the run continues past the failed enumeration
and goes on to issue mutating calls (here an `az snapshot delete`),
completing with a report keyed by raw subscription ids. -/
theorem c4_counterexample :
    main_workflow noAccountsClient none [snapIdA] =
      (MainResult.report
         [("111", [("valid", [EntryData.name "snap-a"]),
                   ("deleted", [EntryData.name "snap-a"])])]
         (some "logs/deletion.txt"),
       [AzEvent.accountShow, AzEvent.accountList, AzEvent.snapshotShow snapIdA,
        AzEvent.accountSet "111", AzEvent.lockList "111" "rg1",
        AzEvent.snapshotDelete snapIdA])
    ∧ AzEvent.snapshotDelete snapIdA ∈ (main_workflow noAccountsClient none [snapIdA]).2 := by
  refine ⟨by decide, by decide⟩

/-- Claim C4 (amended): exactly one fault is workflow-fatal — failure to
authenticate — and it aborts before any client call beyond the login
check itself (in particular before any mutating call); failure to
enumerate accounts is not fatal: the workflow proceeds, using raw
subscription ids as display names, and completes with a report. -/
theorem c4_theorem :
    (∀ (c : AzClient) (fault : Option String) (ids : List String),
      cmdSuccess c.accountShow = false →
      main_workflow c fault ids =
        (MainResult.error "Not logged in to Azure. Please run az login.",
         [AzEvent.accountShow]))
    ∧ (main_workflow noAccountsClient none [snapIdA]).1 =
        MainResult.report
          [("111", [("valid", [EntryData.name "snap-a"]),
                    ("deleted", [EntryData.name "snap-a"])])]
          (some "logs/deletion.txt") := by
  exact ⟨fun c fault ids h => main_workflow_login_fail h fault ids, by decide⟩

/-- Claim C4 (witness): the fail-fast half of the amended theorem applied
to a client that is not logged in. -/
theorem c4_witness :
    main_workflow badLoginClient none [] =
      (MainResult.error "Not logged in to Azure. Please run az login.",
       [AzEvent.accountShow]) :=
  c4_theorem.1 badLoginClient none [] (by decide)

/-- Claim C5: the Reporting merge is additive per account — every
(account, status) binding of the validation outcomes and every binding of
the deletion outcomes survives into the merged report with its entry list
intact.  The status keys the two phases can produce
(`invalid`/`non-existent`/`valid` versus `deleted`/`failed`) are disjoint,
so the `dict.update` in `main` never overwrites a validation list. -/
theorem c5_theorem (c : AzClient) (ids valid : List String)
    (subs : List (String × String)) (a s : String) (xs : List EntryData) :
    (lookupRS (pre_validate_snapshots c ids subs).1.2 a s = some xs →
      lookupRS (mergeResults (pre_validate_snapshots c ids subs).1.2
        (delete_valid_snapshots c valid subs).1) a s = some xs)
    ∧ (lookupRS (delete_valid_snapshots c valid subs).1 a s = some xs →
      lookupRS (mergeResults (pre_validate_snapshots c ids subs).1.2
        (delete_valid_snapshots c valid subs).1) a s = some xs) := by
  constructor
  · intro hpre
    obtain ⟨p0, hp0, _, hs0⟩ := lookupRS_key_mem hpre
    have hsV : s = "invalid" ∨ s = "non-existent" ∨ s = "valid" :=
      preValidateAux_statuses c subs
        (S := fun t => t = "invalid" ∨ t = "non-existent" ∨ t = "valid")
        (Or.inl rfl) (Or.inr (Or.inl rfl))
        (Or.inr (Or.inr rfl)) ids [] [] [] (by simp) p0 hp0 s hs0
    refine merge_preserves_pre _ _ ?_ hpre
    intro p hp q hq
    have hqk : q.1 ∈ smKeys p.2 := List.mem_map_of_mem Prod.fst hq
    have htD : q.1 = "deleted" ∨ q.1 = "failed" :=
      deleteValidAux_statuses c subs (S := fun t => t = "deleted" ∨ t = "failed")
        (Or.inl rfl) (Or.inr rfl) valid [] []
        (by simp) p hp q.1 hqk
    intro heq
    rw [heq] at htD
    rcases hsV with h | h | h <;> rcases htD with h2 | h2 <;> rw [h] at h2 <;>
      exact absurd h2 (by decide)
  · intro hdel
    have hwf : ResultsWF (delete_valid_snapshots c valid subs).1 :=
      deleteValidAux_wf c subs valid [] [] ⟨by simp [resKeys], by simp⟩
    exact merge_finds_del _ _ hwf.1 hwf.2 hdel

/-- Claim C5 (witness): the theorem applied to a run validating `snap-a`
and deleting `snap-b` under account `SubOne`. -/
theorem c5_witness :
    lookupRS
      (mergeResults (pre_validate_snapshots baseClient [snapIdA] [("111", "SubOne")]).1.2
        (delete_valid_snapshots baseClient [snapIdB] [("111", "SubOne")]).1)
      "SubOne" "valid" = some [EntryData.name "snap-a"] :=
  (c5_theorem baseClient [snapIdA] [snapIdB] [("111", "SubOne")] "SubOne" "valid"
    [EntryData.name "snap-a"]).1 (by decide)

/-- Claim C6: an identifier with fewer than 9 slash-separated segments is
classified `"invalid"` (the Malformed outcome) with an empty call trace,
never enters the valid set, and no `az snapshot show` or
`az snapshot delete` for it ever appears in a full workflow run. -/
theorem c6_theorem (c : AzClient) (subs : List (String × String)) (id : String)
    (h : (splitSlash id).length < 9) :
    process_snapshot c id subs =
        ((none, "invalid", EntryData.withReason id "Invalid snapshot ID format"), [])
    ∧ (∀ ids, id ∉ (pre_validate_snapshots c ids subs).1.1)
    ∧ (∀ (fault : Option String) (ids : List String),
        AzEvent.snapshotShow id ∉ (main_workflow c fault ids).2
        ∧ AzEvent.snapshotDelete id ∉ (main_workflow c fault ids).2) := by
  have hnotvalid : ∀ subs2 : List (String × String),
      (process_snapshot c id subs2).1.2.1 ≠ "valid" := by
    intro subs2
    rw [process_snapshot_invalid c subs2 h]
    exact (by decide : ("invalid" : String) ≠ "valid")
  refine ⟨process_snapshot_invalid c subs h, ?_, ?_⟩
  · intro ids hmem
    rcases preValidateAux_valid_mem c subs ids [] [] [] id hmem with h2 | h2
    · simp at h2
    · exact hnotvalid subs h2
  · intro fault ids
    constructor
    · intro hmem
      rcases main_trace_mem c fault ids _ hmem with h2 | h2 | ⟨i, _, h2⟩ | ⟨s2, h2⟩
        | ⟨s2, r2, h2⟩ | ⟨s2, r2, n2, h2⟩ | ⟨i, _, h2⟩ | ⟨s2, r2, n2, lv2, h2⟩
      · simp at h2
      · simp at h2
      · rcases process_snapshot_trace c i (get_subscription_names c).1 with h3 | h3
        · rw [h3] at h2; simp at h2
        · rw [h3] at h2
          have hii : AzEvent.snapshotShow id = AzEvent.snapshotShow i :=
            List.mem_singleton.mp h2
          have hid : id = i := by injection hii
          rw [← hid] at h3
          rw [process_snapshot_invalid c _ h] at h3
          simp at h3
      · simp at h2
      · simp at h2
      · simp at h2
      · simp at h2
      · simp at h2
    · intro hmem
      rcases main_trace_mem c fault ids _ hmem with h2 | h2 | ⟨i, _, h2⟩ | ⟨s2, h2⟩
        | ⟨s2, r2, h2⟩ | ⟨s2, r2, n2, h2⟩ | ⟨i, hi, h2⟩ | ⟨s2, r2, n2, lv2, h2⟩
      · simp at h2
      · simp at h2
      · rcases process_snapshot_trace c i (get_subscription_names c).1 with h3 | h3
        · rw [h3] at h2; simp at h2
        · rw [h3] at h2
          have := List.mem_singleton.mp h2
          simp at this
      · simp at h2
      · simp at h2
      · simp at h2
      · have hid : id = i := by injection h2
        rw [← hid] at hi
        rcases preValidateAux_valid_mem c _ ids [] [] [] id hi with h3 | h3
        · simp at h3
        · exact hnotvalid _ h3
      · simp at h2

/-- Claim C6 (witness): the theorem applied to the malformed identifier
`not-a-valid-id` (one segment). -/
theorem c6_witness :
    process_snapshot baseClient "not-a-valid-id" [] =
        ((none, "invalid",
          EntryData.withReason "not-a-valid-id" "Invalid snapshot ID format"), [])
    ∧ "not-a-valid-id" ∉
        (pre_validate_snapshots baseClient ["not-a-valid-id", snapIdA] []).1.1
    ∧ AzEvent.snapshotShow "not-a-valid-id" ∉
        (main_workflow baseClient none ["not-a-valid-id", snapIdA]).2
    ∧ AzEvent.snapshotDelete "not-a-valid-id" ∉
        (main_workflow baseClient none ["not-a-valid-id", snapIdA]).2 := by
  have h := c6_theorem baseClient [] "not-a-valid-id" (by decide)
  exact ⟨h.1, h.2.1 ["not-a-valid-id", snapIdA],
    (h.2.2 none ["not-a-valid-id", snapIdA]).1,
    (h.2.2 none ["not-a-valid-id", snapIdA]).2⟩

/-- Claim C7: the suspend phase derives distinct (account, resource-group)
pairs for every input (no duplicate pair), and in the concrete
two-identifier scenario — two valid snapshots in `rg1` guarded by one
`CanNotDelete` lock — the lock is removed once, both deletions are
attempted, the lock is restored once after both deletions, and the report
shows two valid and two deleted snapshots. -/
theorem c7_theorem :
    (∀ ids : List String, (get_resource_groups_from_snapshots ids).Nodup)
    ∧ main_workflow lockedClient none [snapIdA, snapIdB] =
        (MainResult.report
          [("SubOne", [("valid", [EntryData.name "snap-a", EntryData.name "snap-b"]),
                       ("deleted", [EntryData.name "snap-a", EntryData.name "snap-b"])])]
          (some "logs/deletion.txt"),
         [AzEvent.accountShow, AzEvent.accountList,
          AzEvent.snapshotShow snapIdA, AzEvent.snapshotShow snapIdB,
          AzEvent.accountSet "111", AzEvent.lockList "111" "rg1",
          AzEvent.lockDelete "111" "rg1" "lock1",
          AzEvent.snapshotDelete snapIdA, AzEvent.snapshotDelete snapIdB,
          AzEvent.accountSet "111",
          AzEvent.lockCreate "111" "rg1" "lock1" "CanNotDelete"]) :=
  ⟨get_resource_groups_nodup, by decide⟩

/-- Claim C8: when validation yields an empty valid set, `main` returns the
validation outcomes as the whole report and the run issues no lock-list,
lock-delete, lock-create, or snapshot-delete call. -/
theorem c8_theorem (c : AzClient) (fault : Option String) (ids : List String)
    (hlogin : cmdSuccess c.accountShow = true)
    (hempty : (pre_validate_snapshots c ids (get_subscription_names c).1).1.1 = []) :
    main_workflow c fault ids =
      (MainResult.report
         (pre_validate_snapshots c ids (get_subscription_names c).1).1.2 c.logFile,
       AzEvent.accountShow :: AzEvent.accountList ::
         (pre_validate_snapshots c ids (get_subscription_names c).1).2)
    ∧ ∀ e ∈ (main_workflow c fault ids).2,
        AzEvent.isLockOp e = false ∧ AzEvent.isSnapshotDelete e = false := by
  have hmain := main_workflow_empty_valid hlogin fault ids hempty
  refine ⟨hmain, ?_⟩
  intro e he
  rw [hmain] at he
  simp only [List.mem_cons] at he
  rcases he with he | he | he
  · rw [he]; exact ⟨rfl, rfl⟩
  · rw [he]; exact ⟨rfl, rfl⟩
  · rcases preValidateAux_trace_mem c _ ids [] [] [] e he with h2 | ⟨i, _, h2⟩
    · simp at h2
    · rcases process_snapshot_trace c i (get_subscription_names c).1 with h3 | h3
      · rw [h3] at h2; simp at h2
      · rw [h3] at h2
        rw [List.mem_singleton.mp h2]
        exact ⟨rfl, rfl⟩

/-- Claim C8 (witness): the theorem applied to a run whose only input is
malformed, so the valid set is empty. -/
theorem c8_witness :
    main_workflow baseClient none ["not-a-valid-id"] =
      (MainResult.report
         (pre_validate_snapshots baseClient ["not-a-valid-id"]
           (get_subscription_names baseClient).1).1.2 baseClient.logFile,
       AzEvent.accountShow :: AzEvent.accountList ::
         (pre_validate_snapshots baseClient ["not-a-valid-id"]
           (get_subscription_names baseClient).1).2)
    ∧ ∀ e ∈ (main_workflow baseClient none ["not-a-valid-id"]).2,
        AzEvent.isLockOp e = false ∧ AzEvent.isSnapshotDelete e = false :=
  c8_theorem baseClient none ["not-a-valid-id"] (by decide) (by decide)

/-- Claim C9: when listing the locks of the first implicated resource
group fails, the suspend phase raises (the `json.loads` of a failed
result) instead of recording an error outcome: the call returns the
exception, no error entry, and the remaining resource group `rg2` is never
visited (no `az lock list` for it). -/
theorem c9_theorem :
    check_and_remove_scope_locks lockListFailClient [("111", "rg1"), ("111", "rg2")] =
      (Except.error "JSONDecodeError: could not get locks",
       [AzEvent.accountSet "111", AzEvent.lockList "111" "rg1"])
    ∧ AzEvent.lockList "111" "rg2" ∉
        (check_and_remove_scope_locks lockListFailClient
          [("111", "rg1"), ("111", "rg2")]).2 := by
  refine ⟨by decide, by decide⟩

/-- Claim C10: for every client behaviour, executor fault, and input list,
the public entry point returns one of exactly two dictionary shapes — the
three-key report mapping (`results`, `log_file`, `total_runtime`) or the
single-key error mapping — and never propagates an exception: every
modelled fault is threaded as an `Except.error` value that the outer
handler of `main` converts into the error mapping. -/
theorem c10_theorem (c : AzClient) (fault : Option String) (ids : List String) :
    (∃ r lf, (main_workflow c fault ids).1 = MainResult.report r lf) ∨
    (∃ m, (main_workflow c fault ids).1 = MainResult.error m) := by
  cases h : (main_workflow c fault ids).1 with
  | report r lf => exact Or.inl ⟨r, lf, rfl⟩
  | error m => exact Or.inr ⟨m, rfl⟩
